import Mathlib

/-!
Shallow embedding of the `python_learning` task tracker: the `Task` entity
(models.py), JSON storage (storage.py), the service layer (service.py),
analytics (analytics.py) and the batched sync job (async_jobs.py), together
with theorems checking the specification's claims against the code.
-/

namespace PythonLearning

/-- Exceptions raised by the Python code paths we model. -/
inductive PyErr where
  | valueError (msg : String)
  | keyError (key : String)
  | typeError (msg : String)
deriving Repr, DecidableEq

/-- JSON values as decoded by `json.loads` (the store only ever writes
integer numbers, so numbers are modelled as `Int`). -/
inductive Json where
  | null
  | bool (b : Bool)
  | num (n : Int)
  | str (s : String)
  | arr (items : List Json)
  | obj (fields : List (String × Json))
deriving Repr

/-- Python `repr()` of a string (single-quoted). -/
def pyStrRepr (s : String) : String :=
  String.singleton (Char.ofNat 39) ++ s ++ String.singleton (Char.ofNat 39)

mutual

/-- Python `str()`/`repr()` of a decoded JSON value in nested (repr) position. -/
def pyRepr : Json → String
  | .null => "None"
  | .bool b => if b then "True" else "False"
  | .num n => toString n
  | .str s => pyStrRepr s
  | .arr items => "[" ++ pyReprItems items ++ "]"
  | .obj fields => "\x7b" ++ pyReprFields fields ++ "\x7d"

/-- Comma-separated reprs of list items. -/
def pyReprItems : List Json → String
  | [] => ""
  | [x] => pyRepr x
  | x :: y :: xs => pyRepr x ++ ", " ++ pyReprItems (y :: xs)

/-- Comma-separated reprs of dict entries. -/
def pyReprFields : List (String × Json) → String
  | [] => ""
  | [kv] => pyStrRepr kv.1 ++ ": " ++ pyRepr kv.2
  | kv :: kv2 :: kvs => pyStrRepr kv.1 ++ ": " ++ pyRepr kv.2 ++ ", " ++ pyReprFields (kv2 :: kvs)

end

/-- Python `str()` applied to a decoded JSON value. -/
def pyStr (v : Json) : String :=
  match v with
  | .str s => s
  | v => pyRepr v

/-- Python truthiness / `bool()` of a decoded JSON value. -/
def pyBool (v : Json) : Bool :=
  match v with
  | .null => false
  | .bool b => b
  | .num n => n ≠ 0
  | .str s => s ≠ ""
  | .arr items => !items.isEmpty
  | .obj fields => !fields.isEmpty

/-- Parse the digits of a decimal literal. -/
def pyDigits (cs : List Char) : Option Nat :=
  match cs with
  | [] => none
  | _ =>
    if cs.all (fun c => c.isDigit) then
      some (cs.foldl (fun acc c => acc * 10 + (c.toNat - 48)) 0)
    else none

/-- Python whitespace code points recognised by `str.strip()` and `int()`. -/
def isPySpace (c : Char) : Bool :=
  c.toNat ∈ ([9, 10, 11, 12, 13, 28, 29, 30, 31, 32, 0x85, 0xA0, 0x1680,
    0x2000, 0x2001, 0x2002, 0x2003, 0x2004, 0x2005, 0x2006, 0x2007, 0x2008,
    0x2009, 0x200A, 0x2028, 0x2029, 0x202F, 0x205F, 0x3000] : List Nat)

/-- Python `str.strip()`: removes leading and trailing whitespace. -/
def pyStrip (s : String) : String :=
  String.mk (((s.data.dropWhile isPySpace).reverse.dropWhile isPySpace).reverse)

/-- Python `int(str)`: optional surrounding whitespace, optional sign, digits. -/
def pyIntOfString (s : String) : Except PyErr Int :=
  let cs := (s.data.dropWhile isPySpace).reverse.dropWhile isPySpace |>.reverse
  let res : Option Int :=
    match cs with
    | '-' :: rest => (pyDigits rest).map (fun n => -(n : Int))
    | '+' :: rest => (pyDigits rest).map (fun n => (n : Int))
    | _ => (pyDigits cs).map (fun n => (n : Int))
  match res with
  | some n => .ok n
  | none => .error (.valueError ("invalid literal for int() with base 10: " ++ pyRepr (.str s)))

/-- Python `int()` applied to a decoded JSON value. -/
def pyInt (v : Json) : Except PyErr Int :=
  match v with
  | .num n => .ok n
  | .bool b => .ok (if b then 1 else 0)
  | .str s => pyIntOfString s
  | _ => .error (.typeError "int() argument must be a string, a bytes-like object or a real number")

/-- Python iteration over a decoded JSON value (lists yield items, strings
yield one-character strings, dicts yield keys; other values are not iterable). -/
def pyIter (v : Json) : Except PyErr (List Json) :=
  match v with
  | .arr items => .ok items
  | .str s => .ok (s.data.map (fun c => .str (String.singleton c)))
  | .obj fields => .ok (fields.map (fun kv => .str kv.1))
  | _ => .error (.typeError "object is not iterable")

/-- Python `str.lower()` on the Latin and Cyrillic alphabets that the
analytics word pattern recognises; other characters are left unchanged. -/
def pyLowerChar (c : Char) : Char :=
  let n := c.toNat
  if 65 ≤ n ∧ n ≤ 90 then Char.ofNat (n + 32)
  else if 0x410 ≤ n ∧ n ≤ 0x42F then Char.ofNat (n + 32)
  else if n = 0x401 then Char.ofNat 0x451
  else c

/-- Python `str.lower()` lifted to strings. -/
def pyLowerStr (s : String) : String :=
  String.mk (s.data.map pyLowerChar)

/-- Python substring containment: the operator `needle in hay` on strings. -/
def strContainsB (hay needle : String) : Bool :=
  decide (needle.data <:+: hay.data)

/-- The `Task` dataclass of models.py. -/
structure Task where
  id : String
  title : String
  description : String
  priority : Int
  done : Bool
  tags : List String
  created_at : String
deriving Repr, DecidableEq

/-- Construction of a `Task`, including the `__post_init__` validation of
models.py: the title is stripped and must be non-empty, the priority must
lie in 1..5. -/
def Task.init (id title description : String) (priority : Int) (done : Bool)
    (tags : List String) (created_at : String) : Except PyErr Task :=
  let t := pyStrip title
  if t = "" then .error (.valueError "title must not be empty")
  else if ¬ (1 ≤ priority ∧ priority ≤ 5) then
    .error (.valueError "priority must be in range 1..5")
  else .ok ⟨id, t, description, priority, done, tags, created_at⟩

/-- Serialization `Task.to_dict` of models.py. -/
def Task.to_dict (t : Task) : Json :=
  .obj [("id", .str t.id), ("title", .str t.title),
    ("description", .str t.description), ("priority", .num t.priority),
    ("done", .bool t.done), ("tags", .arr (t.tags.map Json.str)),
    ("created_at", .str t.created_at)]

/-- Lookup of a key in a decoded JSON object (Python `dict` access). -/
def dictGet (fields : List (String × Json)) (key : String) : Option Json :=
  (fields.find? (fun kv => kv.1 == key)).map (fun kv => kv.2)

/-- Lookup of a required key: Python `raw[key]`, raising `KeyError` when absent. -/
def dictGetReq (fields : List (String × Json)) (key : String) : Except PyErr Json :=
  match dictGet fields key with
  | some v => .ok v
  | none => .error (.keyError key)

/-- Decoding `Task.from_dict` of models.py; `now` stands for the current timestamp
used as the default `created_at`. Non-dict elements fail as Python subscript
access on them does. -/
def Task.from_dict (now : String) (raw : Json) : Except PyErr Task :=
  match raw with
  | .obj fields =>
    match dictGetReq fields "id" with
    | .error e => .error e
    | .ok idJ =>
      match dictGetReq fields "title" with
      | .error e => .error e
      | .ok titleJ =>
        let description :=
          match dictGet fields "description" with
          | none => ""
          | some v => pyStr v
        match (match dictGet fields "priority" with
               | none => .ok 3
               | some v => pyInt v : Except PyErr Int) with
        | .error e => .error e
        | .ok priority =>
          let done :=
            match dictGet fields "done" with
            | none => false
            | some v => pyBool v
          match (match dictGet fields "tags" with
                 | none => .ok []
                 | some v =>
                   match pyIter v with
                   | .error e => .error e
                   | .ok items => .ok (items.map pyStr) : Except PyErr (List String)) with
          | .error e => .error e
          | .ok tags =>
            let created_at :=
              match dictGet fields "created_at" with
              | none => now
              | some v => pyStr v
            Task.init (pyStr idJ) (pyStr titleJ) description priority done
              tags created_at
  | _ => .error (.typeError "json element is not subscriptable by string")

/-! ### Storage (storage.py)

The backing file is modelled as `Option Json`: `none` when the file does not
exist, `some j` for a file whose text decodes to the JSON value `j`. -/

/-- Error message of the `ValueError` that storage.py raises on a non-array
top-level JSON value (the FormatError of the spec). -/
def formatErrorMsg : String := "storage file must contain JSON list"

/-- Loading `TaskStorage.load_tasks` of storage.py. -/
def load_tasks (file : Option Json) (now : String) : Except PyErr (List Task) :=
  match file with
  | none => .ok []
  | some data =>
    match data with
    | .arr items => items.mapM (Task.from_dict now)
    | _ => .error (.valueError formatErrorMsg)

/-- Saving `TaskStorage.save_tasks` of storage.py: the JSON document written to the file. -/
def save_tasks (tasks : List Task) : Json :=
  .arr (tasks.map Task.to_dict)

/-! ### Service (service.py)

The service claims quantify over the stored collection of tasks, so the
store is modelled at the decoded level as a `List Task`; each mutating
operation returns the collection the file holds afterwards. -/

/-- Whether a task survives the two `list_tasks` filters of service.py. -/
def keepsTask (include_done : Bool) (query : Option String) (t : Task) : Bool :=
  (include_done || !t.done) &&
    (match query with
     | none => true
     | some q => if q = "" then true else strContainsB (pyLowerStr t.title) (pyLowerStr q))

/-- The tasks surviving the `list_tasks` filters of service.py, in store order. -/
def visibleTasks (store : List Task) (include_done : Bool) (query : Option String) :
    List Task :=
  let tasks := store
  let tasks := if include_done then tasks else tasks.filter (fun t => !t.done)
  match query with
  | none => tasks
  | some q =>
    if q = "" then tasks
    else
      let lowered := pyLowerStr q
      tasks.filter (fun t => strContainsB (pyLowerStr t.title) lowered)

/-- The sort order of `list_tasks`: Python `sorted` with key
`(-priority, created_at)`, i.e. descending priority, then ascending
`created_at` (string comparison). -/
def taskLe (a b : Task) : Prop :=
  b.priority < a.priority ∨ (a.priority = b.priority ∧ a.created_at ≤ b.created_at)

instance : DecidableRel taskLe := fun a b => by
  unfold taskLe; exact inferInstance

instance : IsTotal Task taskLe := by
  constructor
  intro a b
  unfold taskLe
  rcases lt_trichotomy a.priority b.priority with h | h | h
  · exact Or.inr (Or.inl h)
  · rcases le_total a.created_at b.created_at with hle | hle
    · exact Or.inl (Or.inr ⟨h, hle⟩)
    · exact Or.inr (Or.inr ⟨h.symm, hle⟩)
  · exact Or.inl (Or.inl h)

instance : IsTrans Task taskLe := by
  constructor
  intro a b c hab hbc
  unfold taskLe at *
  rcases hab with h1 | ⟨e1, s1⟩ <;> rcases hbc with h2 | ⟨e2, s2⟩
  · exact Or.inl (by omega)
  · exact Or.inl (by omega)
  · exact Or.inl (by omega)
  · exact Or.inr ⟨e1.trans e2, le_trans s1 s2⟩

/-- Listing `TaskService.list_tasks` of service.py: filter, then stable sort by
`(-priority, created_at)` (Python `sorted` is stable; `List.insertionSort`
with a total preorder is the same stable sort). -/
def list_tasks (store : List Task) (include_done : Bool) (query : Option String) :
    List Task :=
  (visibleTasks store include_done query).insertionSort taskLe

/-- The mutation `complete_task` performs on a matching task. -/
def setDone (t : Task) : Task := { t with done := true }

/-- The service loop of `complete_task`: mark the first task with the given
id as done, reporting whether a match was found. -/
def completeFirst (task_id : String) : List Task → Bool × List Task
  | [] => (false, [])
  | t :: ts =>
    if t.id = task_id then (true, setDone t :: ts)
    else
      let r := completeFirst task_id ts
      (r.1, t :: r.2)

/-- Completion `TaskService.complete_task` of service.py: returns the `changed` flag and
the collection the file holds afterwards (unchanged when no save happens). -/
def complete_task (store : List Task) (task_id : String) : Bool × List Task :=
  let r := completeFirst task_id store
  if r.1 then (true, r.2) else (false, store)

/-- Deletion `TaskService.delete_task` of service.py: returns the `changed` flag and
the collection the file holds afterwards. -/
def delete_task (store : List Task) (task_id : String) : Bool × List Task :=
  let kept := store.filter (fun t => t.id ≠ task_id)
  if kept.length = store.length then (false, store)
  else (true, kept)

/-- Creation `TaskService.add_task` of service.py; `newId` stands for the generated
`uuid4` and `now` for the generated timestamp. On success it returns the new
task and the collection the file holds afterwards. -/
def add_task (store : List Task) (title : String) (description : String)
    (priority : Int) (tags : Option (List String)) (newId now : String) :
    Except PyErr (Task × List Task) :=
  match Task.init newId title description priority false (tags.getD []) now with
  | .error e => .error e
  | .ok task => .ok (task, store ++ [task])

/-- The collection the file holds after `add_task`: on a validation error the
save is never reached, so the stored collection is untouched. -/
def storeAfterAdd (store : List Task) (title : String) (description : String)
    (priority : Int) (tags : Option (List String)) (newId now : String) : List Task :=
  match add_task store title description priority tags newId now with
  | .ok r => r.2
  | .error _ => store

/-- Python `round(q, 2)` with ties to even, over exact rationals. -/
def pyRound2 (q : ℚ) : ℚ :=
  let y := q * 100
  let f := ⌊y⌋
  let frac := y - f
  let r : Int :=
    if frac < 1 / 2 then f
    else if 1 / 2 < frac then f + 1
    else if f % 2 = 0 then f else f + 1
  (r : ℚ) / 100

/-- Result record of `TaskService.stats` of service.py. -/
structure Stats where
  total : Nat
  done : Nat
  open_count : Nat
  completion_rate : ℚ
deriving Repr, DecidableEq

/-- Aggregation `TaskService.stats` of service.py. -/
def stats (store : List Task) : Stats :=
  let total := store.length
  let done := (store.filter (fun t => t.done)).length
  let open_count := total - done
  let completion_rate : ℚ :=
    if total ≠ 0 then pyRound2 ((done : ℚ) / (total : ℚ) * 100) else 0
  ⟨total, done, open_count, completion_rate⟩

/-! ### Analytics (analytics.py) -/

/-- Function `completion_rate` of analytics.py. -/
def completion_rate (tasks : List Task) : ℚ :=
  if tasks = [] then 0
  else
    let done := (tasks.filter (fun t => t.done)).length
    pyRound2 ((done : ℚ) / (tasks.length : ℚ) * 100)

/-- The `_STOPWORDS` set of analytics.py. -/
def STOPWORDS : List String :=
  ["a", "an", "and", "the", "to", "of", "in", "on", "for",
   "и", "в", "на", "с", "по", "для"]

/-- The character class of the `_WORD_RE` pattern of analytics.py:
Latin letters, Cyrillic letters in the ranges А-Я and а-я, and digits. -/
def isWordChar (c : Char) : Bool :=
  let n := c.toNat
  (65 ≤ n && n ≤ 90) || (97 ≤ n && n ≤ 122) ||
    (0x410 ≤ n && n ≤ 0x44F) || (48 ≤ n && n ≤ 57)

/-- Tokenization `_WORD_RE.findall`: the maximal runs of word characters of a string, i.e.
the non-empty pieces obtained by splitting at non-word characters. -/
def findallWords (s : String) : List String :=
  ((s.data.splitOnP (fun c => !isWordChar c)).filter (fun cs => !cs.isEmpty)).map
    (fun cs => String.mk cs)

/-- The token stream of `top_keywords`: for each task in order, the words of
the lowered title followed by the words of the lowered description. -/
def allWords (tasks : List Task) : List String :=
  (tasks.map (fun t =>
    findallWords (pyLowerStr t.title) ++ findallWords (pyLowerStr t.description))).flatten

/-- Whether a token survives the `top_keywords` filter. -/
def keywordKeep (w : String) : Bool :=
  !STOPWORDS.contains w && w.length > 2

/-- The `filtered` token list of `top_keywords`. -/
def filteredWords (tasks : List Task) : List String :=
  (allWords tasks).filter keywordKeep

/-- Distinct elements in order of first occurrence — the key order of a
Python `Counter` built from a list. -/
def firstOccs : List String → List String
  | [] => []
  | w :: ws => w :: (firstOccs ws).filter (fun x => x != w)

/-- The ordering used by `Counter.most_common`: descending count; the sort is
stable, so ties stay in first-encountered order. -/
def countGe (a b : String × Nat) : Prop := b.2 ≤ a.2

instance : DecidableRel countGe := fun a b => by
  unfold countGe; exact inferInstance

instance : IsTotal (String × Nat) countGe := by
  constructor
  intro a b
  unfold countGe
  omega

instance : IsTrans (String × Nat) countGe := by
  constructor
  intro a b c hab hbc
  unfold countGe at *
  omega

/-- The `(token, count)` pairs of the counter, in first-occurrence order. -/
def counterPairs (tasks : List Task) : List (String × Nat) :=
  (firstOccs (filteredWords tasks)).map
    (fun w => (w, (filteredWords tasks).count w))

/-- Function `top_keywords` of analytics.py: `Counter(filtered).most_common(limit)`. -/
def top_keywords (tasks : List Task) (limit : Nat) : List (String × Nat) :=
  ((counterPairs tasks).insertionSort countGe).take limit

/-! ### Batch job simulator (async_jobs.py)

The coroutines are modelled as the functions they compute: the awaited
delays perform no observable work, and `batch_size` is validated before the
loop. -/

/-- Coroutine `simulate_sync` of async_jobs.py: count the tasks, one by one. -/
def simulate_sync (tasks : List Task) : Nat :=
  tasks.foldl (fun synced _ => synced + 1) 0

/-- The batch loop of `sync_in_batches` over `range(0, len(tasks), batch_size)`:
each step takes a slice of `bs1 + 1` tasks (the batch size, which the guard
has ensured is at least 1, encoded as a successor for termination). -/
def syncLoop (bs1 : Nat) (tasks : List Task) : Nat :=
  match tasks with
  | [] => 0
  | t :: ts => simulate_sync (t :: ts.take bs1) + syncLoop bs1 (ts.drop bs1)
termination_by tasks.length
decreasing_by simp; omega

/-- The consecutive batches `tasks[start : start + batch_size]` the loop
processes, with the batch size again encoded as `bs1 + 1`. -/
def syncBatches (bs1 : Nat) (tasks : List Task) : List (List Task) :=
  match tasks with
  | [] => []
  | t :: ts => (t :: ts.take bs1) :: syncBatches bs1 (ts.drop bs1)
termination_by tasks.length
decreasing_by simp; omega

/-- Coroutine `sync_in_batches` of async_jobs.py. -/
def sync_in_batches (tasks : List Task) (batch_size : Int) : Except PyErr Nat :=
  if batch_size ≤ 0 then .error (.valueError "batch_size must be > 0")
  else .ok (syncLoop (batch_size - 1).toNat tasks)

/-- The data-model invariants of §3 of the spec: a task as produced by
`Task.init` (title trimmed and non-empty, priority in 1..5). -/
def TaskValid (t : Task) : Prop :=
  pyStrip t.title = t.title ∧ t.title ≠ "" ∧ 1 ≤ t.priority ∧ t.priority ≤ 5

instance (t : Task) : Decidable (TaskValid t) := by
  unfold TaskValid; exact inferInstance

/-! ## Theorems -/

/-- Decoding the dictionary written by `Task.to_dict` reconstructs the task,
for tasks satisfying the construction invariants. -/
theorem from_dict_to_dict (now : String) (t : Task) (h : TaskValid t) :
    Task.from_dict now t.to_dict = .ok t := by
  obtain ⟨hstrip, hne, hlo, hhi⟩ := h
  have h5 : ¬ (1 ≤ t.priority → 5 < t.priority) := by omega
  simp [Task.to_dict, Task.from_dict, dictGetReq, dictGet, List.find?, pyStr,
    pyInt, pyIter, pyBool, Task.init, hstrip, hne, h5, List.map_map, Function.comp_def]

/-- C6: load() returns an empty sequence (not an error) when the backing file
does not exist, and fails with a FormatError (the ValueError of storage.py)
when the file exists but its top-level JSON value is not an array. -/
theorem load_tasks_edge_cases (now : String) :
    load_tasks none now = .ok [] ∧
    ∀ j : Json, (∀ items, j ≠ .arr items) → load_tasks (some j) now =
      .error (.valueError formatErrorMsg) := by
  refine ⟨rfl, fun j hj => ?_⟩
  cases j with
  | arr items => exact absurd rfl (hj items)
  | null => rfl
  | bool b => rfl
  | num n => rfl
  | str s => rfl
  | obj fields => rfl

/-- Witness for C6 at a concrete non-array file. -/
theorem load_tasks_edge_cases_witness :
    load_tasks (some (.num 3)) "T" = .error (.valueError formatErrorMsg) :=
  (load_tasks_edge_cases "T").2 (.num 3) (fun items h => by cases h)

/-- C2: saving a collection of valid tasks and loading it back yields exactly
the original collection (hence equal length and per-field content, including
the order of tags). -/
theorem save_load_roundtrip (ts : List Task) (now : String)
    (h : ∀ t ∈ ts, TaskValid t) :
    load_tasks (some (save_tasks ts)) now = .ok ts := by
  simp only [load_tasks, save_tasks]
  induction ts with
  | nil => rfl
  | cons t ts ih =>
    have ht := h t (List.mem_cons_self t ts)
    have hts := fun x hx => h x (List.mem_cons_of_mem t hx)
    simp only [List.map_cons, List.mapM_cons, from_dict_to_dict now t ht, ih hts]
    rfl

/-- Witness for C2 on a concrete two-task store. -/
theorem save_load_roundtrip_witness :
    load_tasks (some (save_tasks
      [⟨"id1", "Learn Python", "basics", 2, false, ["study", "py"], "2024-01-01T00:00:00+00:00"⟩,
       ⟨"id2", "Write tests", "", 5, true, [], "2024-01-02T00:00:00+00:00"⟩])) "NOW" =
    .ok
      [⟨"id1", "Learn Python", "basics", 2, false, ["study", "py"], "2024-01-01T00:00:00+00:00"⟩,
       ⟨"id2", "Write tests", "", 5, true, [], "2024-01-02T00:00:00+00:00"⟩] :=
  save_load_roundtrip _ "NOW" (by decide)

/-- C10: when load() decodes an array element, elements missing the "id" key
(or, with "id" present, missing "title") fail with a `KeyError`, and this is
how load() itself fails on such an element — not with the FormatError and not
by defaulting; an element carrying only "id" and "title" has all the optional
fields defaulted (description "", priority 3, done false, tags [],
created_at the current timestamp). -/
theorem from_dict_required_fields :
    (∀ (now : String) fields, dictGet fields "id" = none →
      Task.from_dict now (.obj fields) = .error (.keyError "id")) ∧
    (∀ (now : String) fields v, dictGet fields "id" = some v →
      dictGet fields "title" = none →
      Task.from_dict now (.obj fields) = .error (.keyError "title")) ∧
    (∀ (now : String) fields rest, dictGet fields "id" = none →
      load_tasks (some (.arr (.obj fields :: rest))) now = .error (.keyError "id")) ∧
    (∀ (now i t : String), pyStrip t ≠ "" →
      Task.from_dict now (.obj [("id", .str i), ("title", .str t)]) =
        .ok ⟨i, pyStrip t, "", 3, false, [], now⟩) := by
  refine ⟨fun now fields hid => ?_, fun now fields v hid htitle => ?_,
    fun now fields rest hid => ?_, fun now i t ht => ?_⟩
  · simp [Task.from_dict, dictGetReq, hid]
  · simp [Task.from_dict, dictGetReq, hid, htitle]
  · have h1 : Task.from_dict now (.obj fields) = .error (.keyError "id") := by
      simp [Task.from_dict, dictGetReq, hid]
    simp only [load_tasks, List.mapM_cons, h1]
    rfl
  · simp [Task.from_dict, dictGetReq, dictGet, List.find?, pyStr, Task.init, ht]

/-- Witness for C10 at concrete elements. -/
theorem from_dict_required_fields_witness :
    Task.from_dict "NOW" (.obj [("title", .str "T")]) = .error (.keyError "id") ∧
    Task.from_dict "NOW" (.obj [("id", .str "i")]) = .error (.keyError "title") ∧
    load_tasks (some (.arr [.obj [("done", .bool true)]])) "NOW" = .error (.keyError "id") ∧
    Task.from_dict "NOW" (.obj [("id", .str "i"), ("title", .str " T ")]) =
      .ok ⟨"i", "T", "", 3, false, [], "NOW"⟩ :=
  ⟨from_dict_required_fields.1 "NOW" _ rfl,
   from_dict_required_fields.2.1 "NOW" _ (.str "i") rfl rfl,
   from_dict_required_fields.2.2.1 "NOW" _ [] rfl,
   by
    have := from_dict_required_fields.2.2.2 "NOW" "i" " T " (by decide)
    simpa using this⟩

/-- The changed flag of `completeFirst` reports whether some task matches. -/
theorem completeFirst_fst (task_id : String) (l : List Task) :
    (completeFirst task_id l).1 = true ↔ ∃ t ∈ l, t.id = task_id := by
  induction l with
  | nil => simp [completeFirst]
  | cons t ts ih =>
    by_cases h : t.id = task_id
    · simp [completeFirst, h]
    · simp [completeFirst, h, ih]

/-- When no task matches, `completeFirst` returns the list unchanged. -/
theorem completeFirst_not_found (task_id : String) (l : List Task)
    (h : ∀ t ∈ l, t.id ≠ task_id) : completeFirst task_id l = (false, l) := by
  induction l with
  | nil => rfl
  | cons t ts ih =>
    have ht := h t (List.mem_cons_self t ts)
    have hts := fun x hx => h x (List.mem_cons_of_mem t hx)
    simp [completeFirst, ht, ih hts]

/-- When the first match sits at position `j`, `completeFirst` marks exactly
that task as done. -/
theorem completeFirst_found (task_id : String) :
    ∀ (l : List Task) (j : Nat) (hj : j < l.length),
      (∀ t ∈ l.take j, t.id ≠ task_id) → (l.get ⟨j, hj⟩).id = task_id →
      completeFirst task_id l = (true, l.set j (setDone (l.get ⟨j, hj⟩))) := by
  intro l
  induction l with
  | nil => intro j hj; simp at hj
  | cons t ts ih =>
    intro j hj hpre hmatch
    cases j with
    | zero =>
      simp only [List.get] at hmatch
      simp [completeFirst, hmatch, List.set]
    | succ j =>
      have ht : t.id ≠ task_id := hpre t (by simp)
      have hpre' : ∀ x ∈ ts.take j, x.id ≠ task_id := by
        intro x hx
        exact hpre x (by simp [List.take, hx])
      have := ih j (Nat.lt_of_succ_lt_succ hj) hpre' hmatch
      simp [completeFirst, ht, this, List.set]

/-- C3: complete(id) sets done on the first task with a matching id, keeps
everything else intact, persists only on a match, and returns whether a
change occurred; an unknown id leaves the stored collection unchanged and
returns false. -/
theorem complete_task_spec (store : List Task) (task_id : String) :
    ((complete_task store task_id).1 = true ↔ ∃ t ∈ store, t.id = task_id) ∧
    ((∀ t ∈ store, t.id ≠ task_id) → complete_task store task_id = (false, store)) ∧
    (∀ (j : Nat) (hj : j < store.length),
      (∀ t ∈ store.take j, t.id ≠ task_id) → (store.get ⟨j, hj⟩).id = task_id →
      complete_task store task_id =
        (true, store.set j (setDone (store.get ⟨j, hj⟩)))) := by
  refine ⟨?_, fun h => ?_, fun j hj hpre hmatch => ?_⟩
  · rw [← completeFirst_fst task_id store]
    unfold complete_task
    by_cases h : (completeFirst task_id store).1 <;> simp [h]
  · simp [complete_task, completeFirst_not_found task_id store h]
  · simp [complete_task, completeFirst_found task_id store j hj hpre hmatch]

/-- Witness for C3: the first of two tasks sharing the id is completed. -/
theorem complete_task_spec_witness :
    complete_task
      [⟨"a", "A", "", 3, false, [], "t1"⟩, ⟨"b", "B", "", 3, false, [], "t2"⟩,
       ⟨"b", "C", "", 3, false, [], "t3"⟩] "b" =
      (true,
       [⟨"a", "A", "", 3, false, [], "t1"⟩, ⟨"b", "B", "", 3, true, [], "t2"⟩,
        ⟨"b", "C", "", 3, false, [], "t3"⟩]) := by
  have := (complete_task_spec
      [⟨"a", "A", "", 3, false, [], "t1"⟩, ⟨"b", "B", "", 3, false, [], "t2"⟩,
       ⟨"b", "C", "", 3, false, [], "t3"⟩] "b").2.2 1 (by decide) (by decide) (by decide)
  simpa [setDone] using this

/-- C4: delete(id) removes the matching tasks, keeping the remaining tasks in
their relative order (the result is a sublist of the store); it persists only
when a removal occurred and returns whether a change occurred; an unknown id
leaves the stored collection unchanged and returns false. -/
theorem delete_task_spec (store : List Task) (task_id : String) :
    ((delete_task store task_id).1 = true ↔ ∃ t ∈ store, t.id = task_id) ∧
    ((∀ t ∈ store, t.id ≠ task_id) → delete_task store task_id = (false, store)) ∧
    ((∃ t ∈ store, t.id = task_id) →
      delete_task store task_id = (true, store.filter (fun t => t.id ≠ task_id))) ∧
    List.Sublist (delete_task store task_id).2 store ∧
    ((∃ t ∈ store, t.id = task_id) →
      ∀ t, t ∈ (delete_task store task_id).2 ↔ t ∈ store ∧ t.id ≠ task_id) := by
  have hiff : (store.filter (fun t => t.id ≠ task_id)).length = store.length ↔
      ∀ t ∈ store, t.id ≠ task_id := by
    rw [List.filter_length_eq_length]
    simp
  by_cases h : (store.filter (fun t => t.id ≠ task_id)).length = store.length
  · have hall := hiff.1 h
    have hnone : ¬ ∃ t ∈ store, t.id = task_id := by
      rintro ⟨t, ht, hid⟩
      exact hall t ht hid
    have heq : delete_task store task_id = (false, store) := by
      simp only [delete_task]
      rw [if_pos h]
    refine ⟨by simp [heq, hnone], fun _ => heq, fun hex => absurd hex hnone,
      by simp [heq], fun hex => absurd hex hnone⟩
  · have hsome : ∃ t ∈ store, t.id = task_id := by
      by_contra hno
      push_neg at hno
      exact h (hiff.2 hno)
    have heq : delete_task store task_id =
        (true, store.filter (fun t => t.id ≠ task_id)) := by
      simp only [delete_task]
      rw [if_neg h]
    refine ⟨by rw [heq]; simpa using hsome, fun hall => ?_, fun _ => heq, ?_, fun _ t => ?_⟩
    · obtain ⟨t, ht, hid⟩ := hsome
      exact absurd hid (hall t ht)
    · rw [heq]
      exact store.filter_sublist
    · rw [heq]
      simp

/-- Witness for C4: deleting an unknown id is a no-op, deleting a present id
removes it and keeps the order of the rest. -/
theorem delete_task_spec_witness :
    delete_task [⟨"a", "A", "", 3, false, [], "t1"⟩, ⟨"b", "B", "", 3, false, [], "t2"⟩]
        "zzz" =
      (false, [⟨"a", "A", "", 3, false, [], "t1"⟩, ⟨"b", "B", "", 3, false, [], "t2"⟩]) ∧
    delete_task [⟨"a", "A", "", 3, false, [], "t1"⟩, ⟨"b", "B", "", 3, false, [], "t2"⟩]
        "a" =
      (true, [⟨"b", "B", "", 3, false, [], "t2"⟩]) := by
  constructor
  · exact (delete_task_spec _ "zzz").2.1 (by decide)
  · have := (delete_task_spec
      [⟨"a", "A", "", 3, false, [], "t1"⟩, ⟨"b", "B", "", 3, false, [], "t2"⟩] "a").2.2.1
      ⟨⟨"a", "A", "", 3, false, [], "t1"⟩, by simp, rfl⟩
    simpa using this

/-- C5: add fails with the ValidationError of `Task.__post_init__` when the
trimmed title is empty or the priority is outside 1..5, leaving the stored
collection unchanged; otherwise it appends exactly one new task — the fresh
id, the trimmed title, the given description, priority and tags, done=false,
the fresh timestamp — after the existing tasks, persists, and returns it. -/
theorem add_task_spec (store : List Task) (title description : String)
    (priority : Int) (tags : Option (List String)) (newId now : String) :
    ((pyStrip title = "" ∨ priority < 1 ∨ 5 < priority) →
      (∃ msg, add_task store title description priority tags newId now =
        .error (.valueError msg)) ∧
      storeAfterAdd store title description priority tags newId now = store) ∧
    (pyStrip title ≠ "" → 1 ≤ priority → priority ≤ 5 →
      add_task store title description priority tags newId now =
        .ok (⟨newId, pyStrip title, description, priority, false, tags.getD [], now⟩,
          store ++
            [⟨newId, pyStrip title, description, priority, false, tags.getD [], now⟩])) := by
  constructor
  · intro hbad
    by_cases ht : pyStrip title = ""
    · constructor
      · exact ⟨"title must not be empty", by simp [add_task, Task.init, ht]⟩
      · simp [storeAfterAdd, add_task, Task.init, ht]
    · have hp : ¬ (1 ≤ priority ∧ priority ≤ 5) := by
        rcases hbad with h | h | h
        · exact absurd h ht
        · omega
        · omega
      constructor
      · exact ⟨"priority must be in range 1..5", by simp [add_task, Task.init, ht, hp]⟩
      · simp [storeAfterAdd, add_task, Task.init, ht, hp]
  · intro ht h1 h5
    have hp : 1 ≤ priority ∧ priority ≤ 5 := ⟨h1, h5⟩
    simp [add_task, Task.init, ht, hp]

/-- Witness for C5: an invalid and a valid add on a concrete store. -/
theorem add_task_spec_witness :
    (∃ msg, add_task [] "   " "d" 3 none "id1" "T1" = .error (.valueError msg)) ∧
    storeAfterAdd [] "   " "d" 3 none "id1" "T1" = [] ∧
    add_task [⟨"a", "A", "", 3, false, [], "t1"⟩] "  New task " "d" 5
        (some ["x", "y"]) "id2" "T2" =
      .ok (⟨"id2", "New task", "d", 5, false, ["x", "y"], "T2"⟩,
        [⟨"a", "A", "", 3, false, [], "t1"⟩,
         ⟨"id2", "New task", "d", 5, false, ["x", "y"], "T2"⟩]) := by
  refine ⟨((add_task_spec [] "   " "d" 3 none "id1" "T1").1 (by left; decide)).1,
    ((add_task_spec [] "   " "d" 3 none "id1" "T1").1 (by left; decide)).2, ?_⟩
  have := (add_task_spec [⟨"a", "A", "", 3, false, [], "t1"⟩] "  New task " "d" 5
    (some ["x", "y"]) "id2" "T2").2 (by decide) (by decide) (by decide)
  simpa using this

/-- C9: the analytics completion rate and the completion_rate field of
stats() agree; both are round(done/total*100, 2) on non-empty collections and
0.0 on empty ones; stats() also reports total, done and open counts with
total = done + open. -/
theorem stats_completion_spec (tasks : List Task) :
    (stats tasks).completion_rate = completion_rate tasks ∧
    (tasks = [] → completion_rate tasks = 0) ∧
    (tasks ≠ [] → completion_rate tasks =
      pyRound2 (((tasks.filter (fun t => t.done)).length : ℚ) / (tasks.length : ℚ) * 100)) ∧
    (stats tasks).total = (stats tasks).done + (stats tasks).open_count ∧
    (stats tasks).total = tasks.length ∧
    (stats tasks).done = (tasks.filter (fun t => t.done)).length := by
  have hle : (tasks.filter (fun t => t.done)).length ≤ tasks.length :=
    List.length_filter_le _ tasks
  refine ⟨?_, fun h => by simp [completion_rate, h], fun h => by simp [completion_rate, h],
    ?_, rfl, rfl⟩
  · by_cases h : tasks = []
    · simp [stats, completion_rate, h]
    · have hlen : tasks.length ≠ 0 := by
        simpa [List.length_eq_zero] using h
      simp [stats, completion_rate, h, hlen]
  · simp only [stats]
    omega

/-- Witness for C9 on concrete collections. -/
theorem stats_completion_spec_witness :
    completion_rate [] = 0 ∧
    (stats [⟨"a", "A", "", 3, true, [], "t"⟩, ⟨"b", "B", "", 3, false, [], "t"⟩,
      ⟨"c", "C", "", 3, false, [], "t"⟩]).completion_rate =
      completion_rate [⟨"a", "A", "", 3, true, [], "t"⟩, ⟨"b", "B", "", 3, false, [], "t"⟩,
        ⟨"c", "C", "", 3, false, [], "t"⟩] ∧
    completion_rate [⟨"a", "A", "", 3, true, [], "t"⟩, ⟨"b", "B", "", 3, false, [], "t"⟩,
      ⟨"c", "C", "", 3, false, [], "t"⟩] = 3333 / 100 := by
  refine ⟨(stats_completion_spec []).2.1 rfl, (stats_completion_spec _).1, ?_⟩
  · rw [(stats_completion_spec
      [⟨"a", "A", "", 3, true, [], "t"⟩, ⟨"b", "B", "", 3, false, [], "t"⟩,
       ⟨"c", "C", "", 3, false, [], "t"⟩]).2.2.1 (by decide)]
    norm_num [pyRound2]

/-- Lemma: `simulate_sync` counts one sync per task. -/
theorem simulate_sync_eq_length (tasks : List Task) : simulate_sync tasks = tasks.length := by
  have H : ∀ (l : List Task) (n : Nat), l.foldl (fun synced _ => synced + 1) n = n + l.length := by
    intro l
    induction l with
    | nil => simp
    | cons t ts ih => intro n; simp [List.foldl, ih]; omega
  simpa using H tasks 0

/-- The batch loop syncs every task exactly once. -/
theorem syncLoop_eq_length (bs1 : Nat) (tasks : List Task) :
    syncLoop bs1 tasks = tasks.length := by
  have H : ∀ (n : Nat) (l : List Task), l.length ≤ n → syncLoop bs1 l = l.length := by
    intro n
    induction n with
    | zero =>
      intro l hl
      have : l = [] := List.eq_nil_of_length_eq_zero (Nat.le_zero.1 hl)
      subst this
      simp [syncLoop]
    | succ n ih =>
      intro l hl
      cases l with
      | nil => simp [syncLoop]
      | cons t ts =>
        rw [syncLoop, simulate_sync_eq_length, ih (ts.drop bs1) (by simp at hl ⊢; omega)]
        simp only [List.length_cons, List.length_take, List.length_drop]
        omega
  exact H tasks.length tasks le_rfl

/-- The consecutive batches flatten back to the original task list. -/
theorem syncBatches_flatten (bs1 : Nat) (tasks : List Task) :
    (syncBatches bs1 tasks).flatten = tasks := by
  have H : ∀ (n : Nat) (l : List Task), l.length ≤ n → (syncBatches bs1 l).flatten = l := by
    intro n
    induction n with
    | zero =>
      intro l hl
      have : l = [] := List.eq_nil_of_length_eq_zero (Nat.le_zero.1 hl)
      subst this
      simp [syncBatches]
    | succ n ih =>
      intro l hl
      cases l with
      | nil => simp [syncBatches]
      | cons t ts =>
        rw [syncBatches, List.flatten_cons, ih (ts.drop bs1) (by simp at hl ⊢; omega)]
        simp [List.take_append_drop]
  exact H tasks.length tasks le_rfl

/-- Every batch is non-empty and holds at most `bs1 + 1` tasks. -/
theorem syncBatches_size (bs1 : Nat) (tasks : List Task) :
    ∀ b ∈ syncBatches bs1 tasks, b ≠ [] ∧ b.length ≤ bs1 + 1 := by
  have H : ∀ (n : Nat) (l : List Task), l.length ≤ n →
      ∀ b ∈ syncBatches bs1 l, b ≠ [] ∧ b.length ≤ bs1 + 1 := by
    intro n
    induction n with
    | zero =>
      intro l hl
      have : l = [] := List.eq_nil_of_length_eq_zero (Nat.le_zero.1 hl)
      subst this
      simp [syncBatches]
    | succ n ih =>
      intro l hl b hb
      cases l with
      | nil => simp [syncBatches] at hb
      | cons t ts =>
        rw [syncBatches] at hb
        rcases List.mem_cons.1 hb with hb | hb
        · subst hb
          refine ⟨by simp, ?_⟩
          simp only [List.length_cons, List.length_take]
          omega
        · exact ih (ts.drop bs1) (by simp at hl ⊢; omega) b hb
  exact H tasks.length tasks le_rfl

/-- The loop total is the sum of the per-batch `simulate_sync` results. -/
theorem syncLoop_eq_sum_batches (bs1 : Nat) (tasks : List Task) :
    syncLoop bs1 tasks = ((syncBatches bs1 tasks).map simulate_sync).sum := by
  have H : ∀ (n : Nat) (l : List Task), l.length ≤ n →
      syncLoop bs1 l = ((syncBatches bs1 l).map simulate_sync).sum := by
    intro n
    induction n with
    | zero =>
      intro l hl
      have : l = [] := List.eq_nil_of_length_eq_zero (Nat.le_zero.1 hl)
      subst this
      simp [syncLoop, syncBatches]
    | succ n ih =>
      intro l hl
      cases l with
      | nil => simp [syncLoop, syncBatches]
      | cons t ts =>
        rw [syncLoop, syncBatches, List.map_cons, List.sum_cons,
          ih (ts.drop bs1) (by simp at hl ⊢; omega)]
  exact H tasks.length tasks le_rfl

/-- C7: sync_in_batches fails with a validation error whose message contains
"batch_size" exactly when batch_size ≤ 0, and for positive batch_size it
processes the tasks in consecutive batches of at most batch_size elements in
original order and returns the number of input tasks. -/
theorem sync_in_batches_spec (tasks : List Task) (batch_size : Int) :
    ((∃ msg, sync_in_batches tasks batch_size = .error (.valueError msg) ∧
        List.IsInfix "batch_size".data msg.data) ↔ batch_size ≤ 0) ∧
    (0 < batch_size →
      sync_in_batches tasks batch_size = .ok tasks.length ∧
      (syncBatches (batch_size - 1).toNat tasks).flatten = tasks ∧
      (∀ b ∈ syncBatches (batch_size - 1).toNat tasks,
        b ≠ [] ∧ b.length ≤ batch_size.toNat) ∧
      sync_in_batches tasks batch_size =
        .ok (((syncBatches (batch_size - 1).toNat tasks).map simulate_sync).sum)) := by
  constructor
  · constructor
    · rintro ⟨msg, hmsg, -⟩
      by_contra hpos
      rw [sync_in_batches, if_neg hpos] at hmsg
      exact Except.noConfusion hmsg
    · intro hle
      refine ⟨"batch_size must be > 0", ?_, ?_⟩
      · rw [sync_in_batches, if_pos hle]
      · decide
  · intro hpos
    have hneg : ¬ batch_size ≤ 0 := by omega
    have htonat : (batch_size - 1).toNat + 1 = batch_size.toNat := by omega
    refine ⟨?_, syncBatches_flatten _ tasks, ?_, ?_⟩
    · rw [sync_in_batches, if_neg hneg, syncLoop_eq_length]
    · intro b hb
      have hsz := syncBatches_size (batch_size - 1).toNat tasks b hb
      refine ⟨hsz.1, ?_⟩
      have := hsz.2
      omega
    · rw [sync_in_batches, if_neg hneg, syncLoop_eq_sum_batches]

/-- Witness for C7: the spec scenario of 12 tasks with batch_size 5 and the
invalid batch_size 0. -/
theorem sync_in_batches_spec_witness :
    sync_in_batches (List.replicate 12 ⟨"a", "A", "", 3, false, [], "t"⟩) 5 = .ok 12 ∧
    (∃ msg, sync_in_batches ([] : List Task) 0 = .error (.valueError msg) ∧
      List.IsInfix "batch_size".data msg.data) := by
  constructor
  · have := ((sync_in_batches_spec
      (List.replicate 12 ⟨"a", "A", "", 3, false, [], "t"⟩) 5).2 (by norm_num)).1
    simpa using this
  · exact (sync_in_batches_spec [] 0).1.2 (by norm_num)

/-- Inserting `x` commutes with filtering by a predicate that only holds on
elements `x` precedes: the filtered part of the insertion either gains `x` at
the front or is untouched. -/
theorem filter_orderedInsert {α : Type _} (r : α → α → Prop) [DecidableRel r]
    (p : α → Bool) (x : α) :
    ∀ L : List α, (∀ y ∈ L, p x = true → p y = true → r x y) →
      (List.orderedInsert r x L).filter p =
        if p x then x :: L.filter p else L.filter p := by
  intro L
  induction L with
  | nil =>
    intro _
    simp [List.orderedInsert, List.filter_cons]
  | cons y ys ih =>
    intro h
    by_cases hr : r x y
    · rw [List.orderedInsert, if_pos hr]
      cases hp : p x <;> simp [List.filter_cons, hp]
    · rw [List.orderedInsert, if_neg hr]
      have ih' := ih (fun z hz => h z (List.mem_cons_of_mem _ hz))
      cases hp : p x with
      | false =>
        rw [hp] at ih'
        simp only [Bool.false_eq_true, if_false] at ih'
        cases hpy : p y <;> simp [List.filter_cons, hp, hpy, ih']
      | true =>
        have hpy : p y = false := by
          cases hpy : p y
          · rfl
          · exact absurd (h y (List.mem_cons_self y ys) hp hpy) hr
        rw [hp] at ih'
        simp only [if_true] at ih'
        simp [List.filter_cons, hp, hpy, ih']

/-- Stability of insertion sort: filtering by a predicate whose holders are
pairwise related both ways (equal sort keys) gives the same list before and
after sorting. -/
theorem filter_insertionSort {α : Type _} (r : α → α → Prop) [DecidableRel r]
    (p : α → Bool) (l : List α)
    (h : ∀ a ∈ l, ∀ b ∈ l, p a = true → p b = true → r a b) :
    (l.insertionSort r).filter p = l.filter p := by
  induction l with
  | nil => rfl
  | cons x xs ih =>
    rw [List.insertionSort,
      filter_orderedInsert r p x (xs.insertionSort r) ?side, List.filter_cons]
    case side =>
      intro y hy hpx hpy
      exact h x (List.mem_cons_self x xs) y
        (List.mem_cons_of_mem _ ((List.mem_insertionSort r).1 hy)) hpx hpy
    rw [ih (fun a ha b hb => h a (List.mem_cons_of_mem _ ha) b (List.mem_cons_of_mem _ hb))]

/-- Unfolding of `visibleTasks` for an absent query. -/
theorem visibleTasks_none (store : List Task) (include_done : Bool) :
    visibleTasks store include_done none =
      (if include_done then store else store.filter (fun t => !t.done)) := rfl

/-- Unfolding of `visibleTasks` for a present query. -/
theorem visibleTasks_some (store : List Task) (include_done : Bool) (q : String) :
    visibleTasks store include_done (some q) =
      (if q = "" then (if include_done then store else store.filter (fun t => !t.done))
       else (if include_done then store
             else store.filter (fun t => !t.done)).filter
          (fun t => strContainsB (pyLowerStr t.title) (pyLowerStr q))) := rfl

/-- Membership in the base list of the two `list_tasks` filters. -/
theorem mem_visibleBase {store : List Task} {include_done : Bool} {t : Task}
    (h : t ∈ (if include_done then store else store.filter (fun t => !t.done))) :
    t ∈ store ∧ (include_done = false → t.done = false) := by
  cases include_done with
  | true =>
    rw [if_pos rfl] at h
    exact ⟨h, by simp⟩
  | false =>
    rw [if_neg (by simp)] at h
    have := List.mem_filter.1 h
    exact ⟨this.1, fun _ => by simpa using this.2⟩

/-- Membership in the filtered (pre-sort) task list of `list_tasks`. -/
theorem mem_visibleTasks {store : List Task} {include_done : Bool}
    {query : Option String} {t : Task}
    (h : t ∈ visibleTasks store include_done query) :
    t ∈ store ∧ (include_done = false → t.done = false) ∧
    (∀ q, query = some q → q ≠ "" →
      strContainsB (pyLowerStr t.title) (pyLowerStr q) = true) := by
  cases query with
  | none =>
    rw [visibleTasks_none] at h
    have := mem_visibleBase h
    exact ⟨this.1, this.2, by simp⟩
  | some q =>
    rw [visibleTasks_some] at h
    by_cases hqe : q = ""
    · rw [if_pos hqe] at h
      have := mem_visibleBase h
      refine ⟨this.1, this.2, fun q' hq' hne => ?_⟩
      cases hq'
      exact absurd hqe hne
    · rw [if_neg hqe] at h
      have h1 := List.mem_filter.1 h
      have h2 := mem_visibleBase h1.1
      refine ⟨h2.1, h2.2, fun q' hq' _ => ?_⟩
      cases hq'
      exact h1.2

/-- C1: list() returns a permutation of the loaded tasks surviving the
include_done and query filters, sorted by descending priority with ties in
ascending created_at; equal-key tasks keep their store order (stability), and
every returned task comes from the store, is not done when include_done is
false, and matches the query case-insensitively when one is given. The
operation is pure: the store is not modified. -/
theorem list_tasks_spec (store : List Task) (include_done : Bool)
    (query : Option String) :
    List.Perm (list_tasks store include_done query)
      (visibleTasks store include_done query) ∧
    List.Sorted taskLe (list_tasks store include_done query) ∧
    (∀ (pv : Int) (cv : String),
      (list_tasks store include_done query).filter
          (fun t => t.priority == pv && t.created_at == cv) =
        (visibleTasks store include_done query).filter
          (fun t => t.priority == pv && t.created_at == cv)) ∧
    (∀ t ∈ list_tasks store include_done query,
      t ∈ store ∧ (include_done = false → t.done = false) ∧
      (∀ q, query = some q → q ≠ "" →
        strContainsB (pyLowerStr t.title) (pyLowerStr q) = true)) := by
  refine ⟨List.perm_insertionSort taskLe _, List.sorted_insertionSort taskLe _,
    fun pv cv => ?_, fun t ht => mem_visibleTasks ((List.mem_insertionSort taskLe).1 ht)⟩
  apply filter_insertionSort
  intro a _ b _ hpa hpb
  simp only [Bool.and_eq_true, beq_iff_eq] at hpa hpb
  exact Or.inr ⟨hpa.1.trans hpb.1.symm, le_of_eq (hpa.2.trans hpb.2.symm)⟩

/-- Witness for C1: the spec scenario A(priority 2), B(priority 5) lists as
[B, A], and the conclusions of the claim theorem at concrete stores. -/
theorem list_tasks_spec_witness :
    list_tasks [⟨"a", "A", "", 2, false, [], "t1"⟩, ⟨"b", "B", "", 5, false, [], "t2"⟩]
        true none =
      [⟨"b", "B", "", 5, false, [], "t2"⟩, ⟨"a", "A", "", 2, false, [], "t1"⟩] ∧
    List.Sorted taskLe
      (list_tasks [⟨"a", "A", "", 2, false, [], "t1"⟩, ⟨"b", "B", "", 5, false, [], "t2"⟩]
        true none) ∧
    (∀ t ∈ list_tasks
        [⟨"a", "A", "", 2, false, [], "t1"⟩, ⟨"b", "B", "done", 5, true, [], "t2"⟩]
        false (some "a"),
      t ∈ [⟨"a", "A", "", 2, false, [], "t1"⟩, ⟨"b", "B", "done", 5, true, [], "t2"⟩] ∧
        (false = false → t.done = false) ∧
        (∀ q, (some "a" : Option String) = some q → q ≠ "" →
          strContainsB (pyLowerStr t.title) (pyLowerStr q) = true)) := by
  refine ⟨by decide, (list_tasks_spec _ true none).2.1, fun t ht => ?_⟩
  exact (list_tasks_spec
    [⟨"a", "A", "", 2, false, [], "t1"⟩, ⟨"b", "B", "done", 5, true, [], "t2"⟩]
    false (some "a")).2.2.2 t ht

/-- Tokens produced by `List.splitOnP` never contain a separator character. -/
theorem splitOnP_pieces {α : Type _} (p : α → Bool) :
    ∀ (xs : List α) (l : List α), l ∈ xs.splitOnP p → ∀ c ∈ l, p c = false := by
  intro xs
  induction xs with
  | nil =>
    intro l hl c hc
    rw [List.splitOnP_nil] at hl
    simp at hl
    subst hl
    simp at hc
  | cons x xs ih =>
    intro l hl c hc
    rw [List.splitOnP_cons] at hl
    by_cases hx : p x
    · rw [if_pos hx] at hl
      rcases List.mem_cons.1 hl with h | h
      · subst h
        simp at hc
      · exact ih l h c hc
    · rw [if_neg hx] at hl
      obtain ⟨h0, t0, hsplit⟩ := List.exists_cons_of_ne_nil (List.splitOnP_ne_nil p xs)
      rw [hsplit, List.modifyHead_cons] at hl
      rcases List.mem_cons.1 hl with h | h
      · subst h
        rcases List.mem_cons.1 hc with h | h
        · subst h
          exact Bool.not_eq_true _ ▸ (by simpa using hx)
        · exact ih h0 (hsplit ▸ List.mem_cons_self h0 t0) c h
      · exact ih l (hsplit ▸ List.mem_cons_of_mem h0 h) c hc

/-- Every token of `findallWords` is a non-empty run of word characters. -/
theorem mem_findallWords {s : String} {w : String} (h : w ∈ findallWords s) :
    w.data ≠ [] ∧ w.data.all isWordChar := by
  unfold findallWords at h
  obtain ⟨cs, hcs, rfl⟩ := List.mem_map.1 h
  have h1 := List.mem_filter.1 hcs
  refine ⟨by simpa using h1.2, ?_⟩
  rw [List.all_eq_true]
  intro c hc
  have := splitOnP_pieces (fun c => !isWordChar c) s.data cs h1.1 c hc
  simpa using this

/-- Every token of the stream `allWords` is a non-empty run of word characters. -/
theorem mem_allWords {tasks : List Task} {w : String} (h : w ∈ allWords tasks) :
    w.data ≠ [] ∧ w.data.all isWordChar := by
  unfold allWords at h
  obtain ⟨l, hl, hw⟩ := List.mem_flatten.1 h
  obtain ⟨t, _, rfl⟩ := List.mem_map.1 hl
  rcases List.mem_append.1 hw with h | h
  · exact mem_findallWords h
  · exact mem_findallWords h

/-- Lemma: `firstOccs` keeps exactly the elements of the original list. -/
theorem mem_firstOccs {l : List String} {w : String} :
    w ∈ firstOccs l ↔ w ∈ l := by
  induction l with
  | nil => simp [firstOccs]
  | cons x xs ih =>
    simp only [firstOccs, List.mem_cons, List.mem_filter]
    constructor
    · rintro (rfl | ⟨h, -⟩)
      · exact Or.inl rfl
      · exact Or.inr (ih.1 h)
    · rintro (rfl | h)
      · exact Or.inl rfl
      · by_cases hx : w = x
        · exact Or.inl hx
        · exact Or.inr ⟨ih.2 h, by simpa using hx⟩

/-- C8: every pair returned by top_keywords is a token of the filtered stream
of lower-cased title+description words — a non-empty run of Latin/Cyrillic
letters and digits, not a stop-word, longer than 2 — paired with its exact
frequency; the result is the `limit`-prefix of the count-descending stable
ranking, so ties stay in first-encountered order. -/
theorem top_keywords_spec (tasks : List Task) (limit : Nat) :
    (∀ pr ∈ top_keywords tasks limit,
      pr.1 ∈ filteredWords tasks ∧
      ¬ pr.1 ∈ STOPWORDS ∧ pr.1.length > 2 ∧
      pr.1.data ≠ [] ∧ pr.1.data.all isWordChar ∧
      pr.2 = (filteredWords tasks).count pr.1) ∧
    List.Sorted countGe (top_keywords tasks limit) ∧
    (∀ n : Nat,
      ((counterPairs tasks).insertionSort countGe).filter (fun pr => pr.2 == n) =
        (counterPairs tasks).filter (fun pr => pr.2 == n)) ∧
    top_keywords tasks limit =
      ((counterPairs tasks).insertionSort countGe).take limit ∧
    (top_keywords tasks limit).length = min limit (counterPairs tasks).length := by
  refine ⟨fun pr hpr => ?_, ?_, fun n => ?_, rfl, ?_⟩
  · have hmem : pr ∈ (counterPairs tasks).insertionSort countGe :=
      List.take_subset _ _ hpr
    have hmem2 : pr ∈ counterPairs tasks :=
      (List.mem_insertionSort countGe).1 hmem
    obtain ⟨w, hw, rfl⟩ := List.mem_map.1 hmem2
    have hwf : w ∈ filteredWords tasks := mem_firstOccs.1 hw
    have hkeep := (List.mem_filter.1 hwf).2
    have hall : w ∈ allWords tasks := (List.mem_filter.1 hwf).1
    simp only [keywordKeep, Bool.and_eq_true, Bool.not_eq_true'] at hkeep
    refine ⟨hwf, ?_, ?_, (mem_allWords hall).1, (mem_allWords hall).2, rfl⟩
    · simpa using hkeep.1
    · simpa using hkeep.2
  · exact List.Pairwise.sublist (List.take_sublist _ _)
      (List.sorted_insertionSort countGe _)
  · apply filter_insertionSort
    intro a _ b _ hpa hpb
    simp only [beq_iff_eq] at hpa hpb
    unfold countGe
    omega
  · simp [top_keywords]

/-- Witness for C8: the spec scenario — four title/description texts whose
top three keywords include "python" with count 3. -/
theorem top_keywords_spec_witness :
    top_keywords
      [⟨"1", "Learn Python", "Python async basics", 3, false, [], "t1"⟩,
       ⟨"2", "Write Python tests", "tests and coverage", 3, false, [], "t2"⟩] 3 =
      [("python", 3), ("tests", 2), ("learn", 1)] ∧
    (∀ pr ∈ top_keywords
        [⟨"1", "Learn Python", "Python async basics", 3, false, [], "t1"⟩,
         ⟨"2", "Write Python tests", "tests and coverage", 3, false, [], "t2"⟩] 3,
      ¬ pr.1 ∈ STOPWORDS ∧ pr.1.length > 2) := by
  refine ⟨by decide, fun pr hpr => ?_⟩
  have := (top_keywords_spec
    [⟨"1", "Learn Python", "Python async basics", 3, false, [], "t1"⟩,
     ⟨"2", "Write Python tests", "tests and coverage", 3, false, [], "t2"⟩] 3).1 pr hpr
  exact ⟨this.2.1, this.2.2.1⟩

end PythonLearning
